import Mathlib

/-!
Verification of the curateipsum backup tool (snegov/cura-te-ipsum).

This file shallowly embeds the core of the program:

* `curateipsum/fs.py` — the tree-sync engine (`rsync`), the single-entry
  helpers (`rm_direntry`, `copy_direntry`, `update_direntry`), the hardlink
  replicator (`_recursive_hardlink` / `hardlink_dir`) and the single-path
  delta replicator (`nest_hardlink`);
* `curateipsum/backup.py` — the lock manager (`set_backups_lock`,
  `_pid_exists`), the retention engine (`cleanup_old_backups`) and the
  replication phase of the orchestrator (`initiate_backup`).

Filesystems are modelled as (decidably evaluable) partial maps from relative
paths to entries; a path is a list of name components.  Machine-level details
that the code never branches on (file content bytes, device numbers) are not
modelled; the fields the code reads — entry type, inode, size, mtime, atime,
mode, uid, gid, symlink target — are.  Inode numbers freshly allocated by the
OS (`mkdir`, `open(O_CREAT)`, `os.symlink`) are modelled by a monotone
counter `ino0, ino0+1, ...` passed in by the caller; the hypothesis that the
pre-existing inodes are `< ino0` reflects that the OS never hands out an
inode that is currently in use.
-/

namespace Curateipsum

/-- Sync actions, from `class Actions(enum.Enum)` in `fs.py`. -/
inductive Actions where
  | NOTHING
  | DELETE
  | REWRITE
  | UPDATE_TIME
  | UPDATE_PERM
  | UPDATE_OWNER
  | CREATE
  | ERROR
deriving DecidableEq, Repr

/-- Kind of a filesystem entry as probed with `follow_symlinks=False`:
`is_file` / `is_dir` / `is_symlink`, plus `other` for objects that are none
of the three (sockets, fifos, devices). -/
inductive EKind where
  | file
  | dir
  | symlink
  | other
deriving DecidableEq, Repr

/-- The metadata of one directory entry, as cached by `os.DirEntry` /
`PseudoDirEntry` at traversal time (`stat(follow_symlinks=False)`, i.e.
`lstat`, together with `readlink` for symlinks).  `target` is the symlink
target and is irrelevant (empty) for other kinds.  Directory sizes are
filesystem-determined and never inspected by the engine; the model simply
carries the field. -/
structure Entry where
  kind : EKind
  ino : Nat
  size : Nat
  mtime : Nat
  atime : Nat
  mode : Nat
  uid : Nat
  gid : Nat
  target : String
deriving DecidableEq, Repr

/-- A relative path: list of name components.  `[]` is the tree root. -/
abbrev Path := List String

/-- A filesystem tree: partial map from paths to entries. -/
abbrev FS := Path → Option Entry

/-- An ordered path→entry map, used both for `src_files_map` (a Python dict
in insertion order) and for the flattened `scantree` traversal sequences. -/
abbrev EMap := List (Path × Entry)

/-- First-match lookup (Python dict lookup; keys are unique in a dict and in
a directory tree, so first-match is exact). -/
def lookupMap : EMap → Path → Option Entry
  | [], _ => none
  | (q, e) :: rest, p => if q = p then some e else lookupMap rest p

/-- `del map[key]` — removes the binding for `p` (keys are unique, so
removing every occurrence is the same operation). -/
def eraseMap : EMap → Path → EMap
  | [], _ => []
  | x :: rest, p => if x.1 = p then eraseMap rest p else x :: eraseMap rest p

/-- `rm_direntry` (fs.py:161): files and symlinks are unlinked; directories
are removed recursively; an entry that is none of the three (`is_file`,
`is_symlink`, `is_dir` all false, e.g. a socket) is silently left in place
— the function body has no branch for it. -/
def rm_direntry (k : EKind) (p : Path) (fs : FS) : FS :=
  match k with
  | .file | .symlink => fun q => if q = p then none else fs q
  | .dir => fun q => if p.isPrefixOf q then none else fs q
  | .other => fs

/-- The entry produced by `copy_direntry` (fs.py:201) at the destination:
a directory is `mkdir`-ed, a symlink re-created with `os.symlink`, a file
copied byte-wise (`copy_file`), and then owner, mode and times are copied
from the source lstat (`os.chown` / `os.chmod` / `os.utime`).  The new
object gets a fresh inode `n`.  (For symlinks the chmod is applied only
where the OS supports it; on Linux symlink modes are the constant `0o777`,
so copying the field is extensionally accurate.  File size and symlink
target are preserved by the byte copy / `os.symlink`.) -/
def copy_direntry (src : Entry) (n : Nat) : Entry :=
  { src with ino := n }

/-- Pointwise update of the metadata of an existing entry (`os.chmod`,
`os.chown`, `os.utime` on a live path). -/
def adjust (p : Path) (f : Entry → Entry) (fs : FS) : FS :=
  fun q => if q = p then (fs q).map f else fs q

/-- Mutable state threaded through a sync call: the destination tree and
the next inode number the OS will allocate. -/
structure SyncSt where
  fs : FS
  nextIno : Nat

/-- Creation of a fresh entry at `p` copied from `src` (`copy_direntry`),
allocating a new inode. -/
def freshCopy (src : Entry) (p : Path) (st : SyncSt) : SyncSt :=
  { fs := fun q => if q = p then some (copy_direntry src st.nextIno) else st.fs q,
    nextIno := st.nextIno + 1 }

/-- `update_direntry` (fs.py:230): `rm_direntry` on the destination entry
followed by `copy_direntry` from the source. -/
def update_direntry (srcE dstE : Entry) (p : Path) (st : SyncSt) : SyncSt :=
  freshCopy srcE p { st with fs := rm_direntry dstE.kind p st.fs }

/-- One yielded `(relative_path, action, message)` triple. -/
abbrev Triple := Path × Actions × String

/-- The final permission/ownership stage of one `rsync` comparison
(fs.py:368-378).  The two `if`s run in sequence with no `continue`, so a
path can yield both `UPDATE_PERM` and `UPDATE_OWNER`; the four possible
combinations are written out.  NB the code chmods with `dst_stat.st_mode`
— the destination's own cached mode, not the source's — while the chown
uses the source's uid/gid. -/
def permOwnerStep (srcE dstE : Entry) (p : Path) (st : SyncSt) : SyncSt × List Triple :=
  if srcE.mode ≠ dstE.mode then
    if srcE.uid ≠ dstE.uid ∨ srcE.gid ≠ dstE.gid then
      ({ st with fs := adjust p (fun e => { e with uid := srcE.uid, gid := srcE.gid })
                  (adjust p (fun e => { e with mode := dstE.mode }) st.fs) },
       [(p, Actions.UPDATE_PERM, ""), (p, Actions.UPDATE_OWNER, "")])
    else
      ({ st with fs := adjust p (fun e => { e with mode := dstE.mode }) st.fs },
       [(p, Actions.UPDATE_PERM, "")])
  else
    if srcE.uid ≠ dstE.uid ∨ srcE.gid ≠ dstE.gid then
      ({ st with fs := adjust p (fun e => { e with uid := srcE.uid, gid := srcE.gid }) st.fs },
       [(p, Actions.UPDATE_OWNER, "")])
    else (st, [])

/-- Processing of one destination entry `(p, dstE)` in the `rsync` walk
(fs.py:272-378).  Takes the remaining source map and the current state,
returns the new map, the new state and the yielded triples.  The branch
structure mirrors the source exactly; the metadata compared is the
traversal-time cached stat of both entries.  OS errors are impossible in the
model, so the `except OSError` arms (which yield `ERROR`) never fire. -/
def rsyncStep (m : EMap) (st : SyncSt) (p : Path) (dstE : Entry) :
    EMap × SyncSt × List Triple :=
  match lookupMap m p with
  | none =>
      -- remove dst entries not existing in source
      (m, { st with fs := rm_direntry dstE.kind p st.fs }, [(p, Actions.DELETE, "")])
  | some srcE =>
      -- mark src entry as taken for processing; rewrite dst if it has a
      -- different type from src
      if srcE.kind = .file ∧ dstE.kind ≠ .file then
        (eraseMap m p, update_direntry srcE dstE p st, [(p, Actions.REWRITE, "")])
      else if srcE.kind = .dir ∧ dstE.kind ≠ .dir then
        (eraseMap m p, update_direntry srcE dstE p st, [(p, Actions.REWRITE, "")])
      else if srcE.kind = .symlink ∧ dstE.kind ≠ .symlink then
        (eraseMap m p, update_direntry srcE dstE p st, [(p, Actions.REWRITE, "")])
      -- rewrite dst if it is hard link to src (bad for backups)
      else if srcE.ino = dstE.ino then
        (eraseMap m p, update_direntry srcE dstE p st, [(p, Actions.REWRITE, "")])
      -- rewrite dst file which has different size or mtime than src
      else if srcE.kind = .file ∧ ¬(srcE.size = dstE.size ∧ srcE.mtime = dstE.mtime) then
        (eraseMap m p, update_direntry srcE dstE p st, [(p, Actions.REWRITE, "")])
      -- rewrite dst symlink if it points somewhere else than src
      else if srcE.kind = .symlink ∧ srcE.target ≠ dstE.target then
        (eraseMap m p, update_direntry srcE dstE p st, [(p, Actions.REWRITE, "")])
      else
        -- update permissions and ownership
        (eraseMap m p, (permOwnerStep srcE dstE p st).1, (permOwnerStep srcE dstE p st).2)

/-- The destination walk of `rsync` (fs.py:272): fold `rsyncStep` over the
bottom-up `scantree` traversal of the destination. -/
def rsyncWalk (m : EMap) (st : SyncSt) : List (Path × Entry) → EMap × SyncSt × List Triple
  | [] => (m, st, [])
  | x :: xs =>
      let r1 := rsyncStep m st x.1 x.2
      let r2 := rsyncWalk r1.1 r1.2.1 xs
      (r2.1, r2.2.1, r1.2.2 ++ r2.2.2)

/-- The creation pass of `rsync` (fs.py:381): every source entry left
unclaimed in the map is copied to the destination (top-down dict order),
yielding `CREATE`. -/
def rsyncCreate (st : SyncSt) : EMap → SyncSt × List Triple
  | [] => (st, [])
  | (p, e) :: rest =>
      let r := rsyncCreate (freshCopy e p st) rest
      (r.1, (p, Actions.CREATE, "") :: r.2)

/-- The mtime-restore pass of `rsync` (fs.py:391): for every source
directory (fresh top-down traversal; the source is never mutated, so the
entries equal the initial ones) reset the destination's times if the mtime
drifted.  The destination is re-`lstat`-ed live.  A missing destination
path cannot occur after the walk and create passes. -/
def restoreDirStep (pe : Path × Entry) (st : SyncSt) : SyncSt :=
  if pe.2.kind = .dir then
    match st.fs pe.1 with
    | some d =>
        if d.mtime ≠ pe.2.mtime then
          { st with
            fs := adjust pe.1 (fun e => { e with mtime := pe.2.mtime, atime := pe.2.atime }) st.fs }
        else st
    | none => st
  else st

def restoreDirTimes : EMap → SyncSt → SyncSt
  | [], st => st
  | pe :: rest, st => restoreDirTimes rest (restoreDirStep pe st)

/-- The final root-mtime restore of `rsync` (fs.py:405). -/
def restoreRootTime (srcRoot : Entry) (st : SyncSt) : SyncSt :=
  match st.fs [] with
  | some r =>
      if srcRoot.mtime ≠ r.mtime then
        { st with
          fs := adjust [] (fun e => { e with mtime := srcRoot.mtime, atime := srcRoot.atime }) st.fs }
      else st
  | none => st

/-- The initial destination filesystem: the root directory entry plus the
traversed entries. -/
def fsOfList (l : EMap) (root : Entry) : FS :=
  fun q => if q = [] then some root else lookupMap l q

/-- `rsync` (fs.py:240): the built-in tree-sync engine, on a valid source
(`srcList` = top-down `scantree` of the source, `srcRoot` its root entry)
and destination (`dstList` = bottom-up `scantree` of the destination,
`dstRoot` its root entry; the destination directory exists).  `ino0` is the
next inode number the OS will allocate.  Returns the yielded triples and the
final state.  The `dry_run` parameter is accepted and — exactly as in the
source, whose body never reads it — ignored. -/
def rsync (dryRun : Bool) (srcList dstList : EMap) (srcRoot dstRoot : Entry)
    (ino0 : Nat) : List Triple × SyncSt :=
  let st0 : SyncSt := ⟨fsOfList dstList dstRoot, ino0⟩
  let r1 := rsyncWalk srcList st0 dstList
  let r2 := rsyncCreate r1.2.1 r1.1
  let st3 := restoreDirTimes srcList r2.1
  let st4 := restoreRootTime srcRoot st3
  (r1.2.2 ++ r2.2, st4)

/-! ## Single-path delta replication: `nest_hardlink` (fs.py:500) -/

/-- The list of nonempty prefixes of a relative path, shortest first:
`src_relpath.split(os.path.sep)` accumulated component by component. -/
def pathPrefixes (p : Path) : List Path :=
  (List.range p.length).map (fun i => p.take (i + 1))

/-- The prefix-creation loop of `nest_hardlink` (fs.py:531-538): walk the
components of `src_relpath`; a destination prefix that already exists is
skipped, a missing one is created with `copy_direntry` from the source
prefix (a fresh object with a fresh inode — `mkdir` for directories,
`os.symlink` for symlinks, `copy_file` for regular files).  A missing
source prefix would make `copy_direntry`'s stat raise; the model returns
`none` for that uncaught error. -/
def nestLinkLoop (srcFs : FS) (ino0 : Nat) : FS → List Path → Option (FS × Nat)
  | fs, [] => some (fs, ino0)
  | fs, q :: rest =>
      match fs q with
      | some _ => nestLinkLoop srcFs ino0 fs rest
      | none =>
          match srcFs q with
          | none => none
          | some se =>
              nestLinkLoop srcFs (ino0 + 1)
                (fun r => if r = q then some (copy_direntry se ino0) else fs r) rest

/-- `nest_hardlink(src_dir, src_relpath, dst_dir)` (fs.py:500): replicate a
single relative path (and its ancestor directories) from the reference tree
`srcFs` into the delta tree `dstFs`.  `none` models the uncaught
`RuntimeError`/`OSError` cases.  Mirrors the source: check the source path
exists (`lexists`); create the destination root if missing (fresh dir
copied nothing — modelled as the given `dstRootIfMissing` entry), fail if it
exists as a non-directory; if the destination path exists and
`os.path.samestat` says it is the same object as the source (same inode on
one device), return unchanged (no-op); otherwise `rm_direntry` it and run
the prefix loop.  (`PseudoDirEntry.stat()` follows symlinks; for the
non-symlink entries of this development it coincides with `lstat`.) -/
def nest_hardlink (srcFs : FS) (relPath : Path) (dstFs : FS)
    (dstRootIfMissing : Entry) (ino0 : Nat) : Option (FS × Nat) :=
  match srcFs relPath with
  | none => none
  | some srcE =>
      let rootStep : Option (FS × Nat) :=
        match dstFs [] with
        | some r => if r.kind = .dir then some (dstFs, ino0) else none
        | none =>
            some (fun q => if q = [] then some dstRootIfMissing else dstFs q, ino0 + 1)
      match rootStep with
      | none => none
      | some (fs1, n1) =>
          match fs1 relPath with
          | some dstE =>
              if srcE.ino = dstE.ino then
                some (fs1, n1)
              else
                nestLinkLoop srcFs n1 (rm_direntry dstE.kind relPath fs1) (pathPrefixes relPath)
          | none => nestLinkLoop srcFs n1 fs1 (pathPrefixes relPath)

/-! ## Hardlink replication and the orchestrator's replication phase
(`_recursive_hardlink`, fs.py:438; `initiate_backup`, backup.py:312-323) -/

/-- Result of a call to the built-in recursive hardlinker: either it raises
(`NotImplementedError(ent.path)` on an entry that is none of file,
directory, symlink — the exception propagates) or it returns a boolean. -/
inductive HlResult where
  | raised (p : Path)
  | returned (b : Bool)
deriving DecidableEq, Repr

/-- `_recursive_hardlink` (fs.py:438) over the top-down traversal of the
source tree: directories are re-created (`os.mkdir` + metadata copy),
files and symlinks are hardlinked (`os.link`, sharing the inode), and the
first entry of any other kind raises `NotImplementedError`, aborting the
walk.  If the walk completes, the function returns `True` (it has no
`return False` path). -/
def recursiveHardlink : List (Path × Entry) → HlResult
  | [] => .returned true
  | (p, e) :: rest =>
      match e.kind with
      | .dir => recursiveHardlink rest
      | .file => recursiveHardlink rest
      | .symlink => recursiveHardlink rest
      | .other => .raised p

/-- What the backups root looks like after the replication phase of
`initiate_backup`, plus how control left that phase. -/
structure ReplOutcome where
  /-- an exception escaped `initiate_backup` (nothing catches
  `NotImplementedError`) -/
  raised : Bool
  /-- the run did not proceed to the sync phase -/
  aborted : Bool
  /-- the new snapshot directory still exists on disk -/
  newPathExists : Bool
deriving DecidableEq, Repr

/-- The handling of the replication result in `initiate_backup`
(backup.py:316-323): `hardlink_dir` has already created `newPath`
(`os.mkdir`, fs.py:493) before walking.  A `False` return is answered by
`shutil.rmtree(cur_backup.path)` and `return`; a `True` return proceeds.
An exception raised by the walk propagates — `initiate_backup` only catches
`fs.BackupCreationError`, and only around the sync loop — so no cleanup
runs and the partially built `newPath` stays behind. -/
def handleReplication : HlResult → ReplOutcome
  | .raised _ => ⟨true, true, true⟩
  | .returned false => ⟨false, true, false⟩
  | .returned true => ⟨false, false, true⟩

/-- The replication phase of `initiate_backup` for an existing latest
snapshot with top-down traversal `latestEntries`, using the built-in
(python) hardlinker. -/
def replicateLatest (latestEntries : List (Path × Entry)) : ReplOutcome :=
  handleReplication (recursiveHardlink latestEntries)

/-! ## Lock manager (`set_backups_lock`, `_pid_exists`, backup.py:72-131) -/

/-- `_pid_exists` (backup.py:72): PID 0 is reported alive unconditionally;
otherwise `os.kill(pid, 0)` probes the process table (`alive`); `ESRCH`
means dead, `EPERM` means alive.  (The other-errno re-raise is unreachable
in the model: the table answers dead-or-alive.) -/
def pid_exists (alive : Nat → Bool) (pid : Nat) : Bool :=
  if pid = 0 then true else alive pid

/-- `set_backups_lock` (backup.py:100) as a transition on the lock-file
state (`none` = no lock file, `some pid` = lock file recording `pid`).
Returns the boolean result and the new lock-file state.  With no lock file
it writes the caller's PID.  With an existing lock file it reads the
recorded PID: if that process is alive and `force` is unset it fails; if
alive and `force` is set it SIGKILLs the process and unlinks the lock; if
dead it unlinks the stale lock — in both unlink cases it returns `True`
WITHOUT writing a new lock file. -/
def set_backups_lock (alive : Nat → Bool) (myPid : Nat) (force : Bool)
    (lockFile : Option Nat) : Bool × Option Nat :=
  match lockFile with
  | none => (true, some myPid)
  | some pid =>
      if pid_exists alive pid then
        if force = false then (false, some pid)
        else (true, none)
      else (true, none)

/-! ## Calendar arithmetic (Python `datetime` operations used by
`cleanup_old_backups`, backup.py:148) -/

/-- Days since 0000-03-01 of a proleptic-Gregorian civil date (the standard
era/year-of-era algorithm; all quantities are non-negative for years ≥ 1,
so `Nat` division is exact floor division as in Python). -/
def days0 (y m d : Nat) : Nat :=
  let yAdj := if m ≤ 2 then y - 1 else y
  let era := yAdj / 400
  let yoe := yAdj % 400
  let mp := (m + 9) % 12
  let doy := (153 * mp + 2) / 5 + d - 1
  let doe := yoe * 365 + yoe / 4 - yoe / 100 + doy
  era * 146097 + doe

/-- Inverse of `days0`: the civil date `(y, m, d)` of a day count. -/
def civil0 (z : Nat) : Nat × Nat × Nat :=
  let era := z / 146097
  let doe := z % 146097
  let yoe := (doe - doe / 1460 + doe / 36524 - doe / 146096) / 365
  let y := yoe + era * 400
  let doy := doe - (365 * yoe + yoe / 4 - yoe / 100)
  let mp := (5 * doy + 2) / 153
  let d := doy - (153 * mp + 2) / 5 + 1
  let m := if mp < 10 then mp + 3 else mp - 9
  (if m ≤ 2 then y + 1 else y, m, d)

/-- Python's `datetime.weekday()`: Monday = 0 … Sunday = 6.
(1970-01-01, day number 719468, was a Thursday = 3.) -/
def weekdayPy (y m d : Nat) : Nat :=
  (days0 y m d + 2) % 7

/-- 1-based ordinal day of the year. -/
def dayOfYear (y m d : Nat) : Nat :=
  days0 y m d - days0 y 1 1 + 1

/-- Whether an ISO year has 53 weeks (standard characterization). -/
def isoLongYear (y : Nat) : Bool :=
  let p := fun yy => (yy + yy / 4 - yy / 100 + yy / 400) % 7
  p y = 4 || p (y - 1) = 3

def isoWeeksOf (y : Nat) : Nat :=
  if isoLongYear y then 53 else 52

/-- `datetime.isocalendar()[1]`: the ISO-8601 week number (only the week
number — the code compares index `[1]` alone, ignoring the ISO year). -/
def isoWeek (y m d : Nat) : Nat :=
  let dow := weekdayPy y m d + 1
  let w := (dayOfYear y m d + 10 - dow) / 7
  if w = 0 then isoWeeksOf (y - 1)
  else if w > isoWeeksOf y then 1
  else w

/-- A `datetime` value at the second precision used by
`BACKUP_ENT_FMT = "%Y%m%d_%H%M%S"`. -/
structure DT where
  year : Nat
  month : Nat
  day : Nat
  hour : Nat
  minute : Nat
  second : Nat
deriving DecidableEq, Repr

/-- The numeric key corresponding to a snapshot name
`strftime("%Y%m%d_%H%M%S")`.  Snapshot names are fixed-width, zero-padded
digit strings, so Python's string comparison of two names (and of a name
against a formatted threshold) is exactly comparison of these keys. -/
def DT.key (t : DT) : Nat :=
  ((((t.year * 100 + t.month) * 100 + t.day) * 100 + t.hour) * 100 + t.minute) * 100
    + t.second

/-- `t - timedelta(days=k)` (time of day unchanged). -/
def DT.subDays (t : DT) (k : Nat) : DT :=
  let c := civil0 (days0 t.year t.month t.day - k)
  { t with year := c.1, month := c.2.1, day := c.2.2 }

/-- `.replace(hour=0, minute=0, second=0)`. -/
def DT.startOfDay (t : DT) : DT :=
  { t with hour := 0, minute := 0, second := 0 }

/-- Python `.weekday()` of a `DT`. -/
def DT.weekday (t : DT) : Nat :=
  weekdayPy t.year t.month t.day

/-! ## Retention engine (`cleanup_old_backups`, backup.py:148) -/

/-- The five `keep_*` parameters; `none` models a `None` argument
(disabled tier). -/
structure RetCfg where
  keep_all : Option Nat
  keep_daily : Option Nat
  keep_weekly : Option Nat
  keep_monthly : Option Nat
  keep_yearly : Option Nat
deriving Repr

/-- The five tier thresholds (backup.py:192-216), as the timestamps the
formatted strings denote. -/
structure Thresholds where
  tAll : DT
  tDaily : DT
  tWeekly : DT
  tMonthly : DT
  tYearly : DT
deriving DecidableEq, Repr

/-- Threshold computation from `now` (backup.py:191-216).  Every tier
defaults to `now` (disabled → immediately empty bucket).  `all` and
`daily`: `now - timedelta(days=n)` truncated to start of day.  `weekly`:
`now - timedelta(weeks=n, days=now.weekday())` — NOT truncated to midnight
(the code has no `.replace` on this branch).  `monthly`:
`now - timedelta(days=30*n)` with `day=1` and midnight.  `yearly`:
`now - timedelta(days=365*n)` with `month=1, day=1` and midnight. -/
def mkThresholds (now : DT) (cfg : RetCfg) : Thresholds where
  tAll :=
    match cfg.keep_all with
    | none => now
    | some n => (now.subDays n).startOfDay
  tDaily :=
    match cfg.keep_daily with
    | none => now
    | some n => (now.subDays n).startOfDay
  tWeekly :=
    match cfg.keep_weekly with
    | none => now
    | some n => now.subDays (7 * n + now.weekday)
  tMonthly :=
    match cfg.keep_monthly with
    | none => now
    | some n => ({ now.subDays (30 * n) with day := 1 }).startOfDay
  tYearly :=
    match cfg.keep_yearly with
    | none => now
    | some n => ({ now.subDays (365 * n) with month := 1, day := 1 }).startOfDay

/-- `.date()` of a backup's parsed name. -/
def dateKey (t : DT) : Nat × Nat × Nat := (t.year, t.month, t.day)

/-- `.isocalendar()[1]` of a backup's parsed name. -/
def weekKey (t : DT) : Nat := isoWeek t.year t.month t.day

/-- `.date().replace(day=1)` — two dates agree on it iff year and month
agree. -/
def monthKey (t : DT) : Nat × Nat := (t.year, t.month)

/-- `.date().replace(month=1, day=1)` — two dates agree on it iff the year
agrees. -/
def yearKey (t : DT) : Nat := t.year

/-- The anchor walk of `cleanup_old_backups` (backup.py:221-259) over the
backups after the newest, newest first.  `prev` is the current anchor.
Returns the list of backups marked for removal (`to_remove[...] = True`),
in marking order.  Branches, in source order: newer than the `all`
threshold → keep, advance the anchor; newer than daily / weekly / monthly /
yearly threshold → if the anchor shares the tier's bucket key, mark the
anchor, then advance the anchor; older than every threshold → mark the
backup itself, anchor unchanged.  Comparisons `backup.name > thresholds[…]`
are string comparisons of fixed-width timestamps, i.e. `DT.key` order. -/
def markLoop (th : Thresholds) : DT → List DT → List DT
  | _, [] => []
  | prev, b :: rest =>
      if th.tAll.key < b.key then
        markLoop th b rest
      else if th.tDaily.key < b.key then
        (if dateKey prev = dateKey b then [prev] else []) ++ markLoop th b rest
      else if th.tWeekly.key < b.key then
        (if weekKey prev = weekKey b then [prev] else []) ++ markLoop th b rest
      else if th.tMonthly.key < b.key then
        (if monthKey prev = monthKey b then [prev] else []) ++ markLoop th b rest
      else if th.tYearly.key < b.key then
        (if yearKey prev = yearKey b then [prev] else []) ++ markLoop th b rest
      else
        b :: markLoop th prev rest

/-- Insertion into a descending-by-name list (model of
`sorted(..., key=lambda e: e.name, reverse=True)`). -/
def insertDesc (x : DT) : List DT → List DT
  | [] => [x]
  | y :: ys => if y.key ≤ x.key then x :: y :: ys else y :: insertDesc x ys

def sortDesc (l : List DT) : List DT :=
  l.foldr insertDesc []

/-- `cleanup_old_backups` (backup.py:148): given `now` and the set of valid
snapshots (their parsed timestamps), the set marked for deletion.  With no
backups, or a single backup, the function returns before marking anything
(backup.py:183-189). -/
def cleanup_old_backups (now : DT) (cfg : RetCfg) (l : List DT) : List DT :=
  match sortDesc l with
  | [] => []
  | [_] => []
  | b0 :: rest => markLoop (mkThresholds now cfg) b0 rest

/-- The snapshots remaining in the backups root after a
`cleanup_old_backups` run (the marked ones are `shutil.rmtree`-d). -/
def survivors (now : DT) (cfg : RetCfg) (l : List DT) : List DT :=
  (sortDesc l).filter (fun b => !((cleanup_old_backups now cfg l).contains b))

/-- Modelled from the spec (for comparison with the code's threshold):
"`weekly` = start of the current week minus N weeks (inclusive of the
current partial week)" — midnight at the Monday of the week containing
`now`, minus N weeks. -/
def weeklyCutoffSpec (now : DT) (n : Nat) : DT :=
  (now.startOfDay.subDays now.weekday).subDays (7 * n)

/-! ## Lemmas about the retention engine -/

theorem length_insertDesc (x : DT) (l : List DT) :
    (insertDesc x l).length = l.length + 1 := by
  induction l with
  | nil => rfl
  | cons y ys ih =>
      unfold insertDesc
      split
      · rfl
      · simp [List.length_cons, ih]

theorem length_sortDesc (l : List DT) : (sortDesc l).length = l.length := by
  induction l with
  | nil => rfl
  | cons x xs ih =>
      have h : sortDesc (x :: xs) = insertDesc x (sortDesc xs) := rfl
      rw [h, length_insertDesc, ih, List.length_cons]

theorem mem_ite_singleton_append {x prev : DT} {c : Prop} [Decidable c] {L : List DT}
    (hx : x ∈ (if c then [prev] else []) ++ L) : x = prev ∨ x ∈ L := by
  split at hx
  · rcases List.mem_cons.1 (by simpa using hx) with rfl | h
    · exact Or.inl rfl
    · exact Or.inr h
  · exact Or.inr (by simpa using hx)

theorem markLoop_subset (th : Thresholds) (prev : DT) (l : List DT) :
    ∀ x ∈ markLoop th prev l, x ∈ prev :: l := by
  induction l generalizing prev with
  | nil => intro x hx; simp [markLoop] at hx
  | cons b rest ih =>
      intro x hx
      have hb : ∀ q, x ∈ markLoop th q rest → x = q ∨ x ∈ rest := fun q hq =>
        List.mem_cons.1 (ih q x hq)
      unfold markLoop at hx
      by_cases h1 : th.tAll.key < b.key
      · rw [if_pos h1] at hx
        rcases hb b hx with rfl | h
        · simp
        · simp [h]
      rw [if_neg h1] at hx
      by_cases h2 : th.tDaily.key < b.key
      · rw [if_pos h2] at hx
        rcases mem_ite_singleton_append hx with rfl | h
        · simp
        · rcases hb b h with rfl | h2
          · simp
          · simp [h2]
      rw [if_neg h2] at hx
      by_cases h3 : th.tWeekly.key < b.key
      · rw [if_pos h3] at hx
        rcases mem_ite_singleton_append hx with rfl | h
        · simp
        · rcases hb b h with rfl | h2
          · simp
          · simp [h2]
      rw [if_neg h3] at hx
      by_cases h4 : th.tMonthly.key < b.key
      · rw [if_pos h4] at hx
        rcases mem_ite_singleton_append hx with rfl | h
        · simp
        · rcases hb b h with rfl | h2
          · simp
          · simp [h2]
      rw [if_neg h4] at hx
      by_cases h5 : th.tYearly.key < b.key
      · rw [if_pos h5] at hx
        rcases mem_ite_singleton_append hx with rfl | h
        · simp
        · rcases hb b h with rfl | h2
          · simp
          · simp [h2]
      rw [if_neg h5] at hx
      rcases List.mem_cons.1 hx with rfl | h
      · simp
      · rcases hb prev h with rfl | h2
        · simp
        · simp [h2]

theorem cleanup_subset (now : DT) (cfg : RetCfg) (l : List DT) :
    ∀ x ∈ cleanup_old_backups now cfg l, x ∈ sortDesc l := by
  intro x hx
  unfold cleanup_old_backups at hx
  cases hs : sortDesc l with
  | nil => rw [hs] at hx; simp at hx
  | cons b0 rest =>
      rw [hs] at hx
      cases rest with
      | nil => simp at hx
      | cons b1 rest2 => exact markLoop_subset _ b0 (b1 :: rest2) x hx

theorem length_filter_lt {α : Type} (p : α → Bool) (l : List α) (a : α)
    (ha : a ∈ l) (hpa : p a = false) : (l.filter p).length < l.length := by
  induction l with
  | nil => simp at ha
  | cons x xs ih =>
      rcases List.mem_cons.1 ha with rfl | ha'
      · simp only [List.filter_cons, hpa]
        exact Nat.lt_succ_of_le (List.length_filter_le p xs)
      · simp only [List.filter_cons]
        split
        · simpa using Nat.succ_lt_succ (ih ha')
        · exact Nat.lt_succ_of_lt (ih ha')

theorem survivors_length_lt (now : DT) (cfg : RetCfg) (l : List DT)
    (h : cleanup_old_backups now cfg l ≠ []) :
    (survivors now cfg l).length < l.length := by
  obtain ⟨a, ha⟩ := List.exists_mem_of_ne_nil _ h
  have hmem : a ∈ sortDesc l := cleanup_subset now cfg l a ha
  have hc : (cleanup_old_backups now cfg l).contains a = true :=
    List.elem_eq_true_of_mem ha
  have hpa : (!((cleanup_old_backups now cfg l).contains a)) = false := by
    rw [hc]; rfl
  calc (survivors now cfg l).length
      < (sortDesc l).length := length_filter_lt _ _ a hmem hpa
    _ = l.length := length_sortDesc l

/-! ## Claim C6 -/

/-- C6: for every configuration of the five retention windows and every
`now`, if zero or one valid snapshots exist, the retention engine marks
nothing for deletion — in particular a single valid snapshot is retained no
matter how far in the past its timestamp lies (`cleanup_old_backups`
returns before marking when `len(all_backups) <= 1`, backup.py:183-189). -/
theorem c6_retention_spares_zero_or_one (now : DT) (cfg : RetCfg) (l : List DT)
    (h : l.length ≤ 1) : cleanup_old_backups now cfg l = [] := by
  have hs : (sortDesc l).length ≤ 1 := by rw [length_sortDesc]; exact h
  unfold cleanup_old_backups
  cases hq : sortDesc l with
  | nil => rfl
  | cons b0 rest =>
      cases rest with
      | nil => rfl
      | cons b1 rest2 => rw [hq] at hs; simp at hs

/-- Witness for C6: the spec's own scenario — a single snapshot
`20010101_000000` with `keep_all = 1` and `now` far in the future
(2021-10-20) is not deleted. -/
theorem c6_retention_spares_zero_or_one_witness :
    ([(⟨2001, 1, 1, 0, 0, 0⟩ : DT)].length ≤ 1) ∧
      cleanup_old_backups ⟨2021, 10, 20, 0, 0, 0⟩ ⟨some 1, none, none, none, none⟩
        [⟨2001, 1, 1, 0, 0, 0⟩] = [] :=
  ⟨by decide,
   c6_retention_spares_zero_or_one ⟨2021, 10, 20, 0, 0, 0⟩
     ⟨some 1, none, none, none, none⟩ [⟨2001, 1, 1, 0, 0, 0⟩] (by decide)⟩

/-! ## Claim C7 -/

/-- C7: the weekly cutoff computed by the retention engine
(backup.py:202-206) is NOT the start of the current calendar week minus N
weeks: the code subtracts `timedelta(weeks=N, days=now.weekday())` from
`now` but — unlike the `all`/`daily`/`monthly`/`yearly` tiers — never
truncates the time of day to midnight.  At `now` = 2021-10-21 (a Thursday)
12:00:00 with N = 1 the code's cutoff is Monday 2021-10-11 at 12:00:00,
whereas the spec's cutoff (start of week minus one week) is Monday
2021-10-11 at 00:00:00. -/
theorem c7_weekly_cutoff_misses_midnight_truncation :
    (mkThresholds ⟨2021, 10, 21, 12, 0, 0⟩ ⟨none, none, some 1, none, none⟩).tWeekly
        = ⟨2021, 10, 11, 12, 0, 0⟩ ∧
      weeklyCutoffSpec ⟨2021, 10, 21, 12, 0, 0⟩ 1 = ⟨2021, 10, 11, 0, 0, 0⟩ ∧
      (mkThresholds ⟨2021, 10, 21, 12, 0, 0⟩ ⟨none, none, some 1, none, none⟩).tWeekly
        ≠ weeklyCutoffSpec ⟨2021, 10, 21, 12, 0, 0⟩ 1 := by
  refine ⟨by decide, by decide, by decide⟩

/-! ## Claim C8 -/

/-- C8 is false: retention is not idempotent.  With
`now` = 2021-10-21 (Thursday) 12:00:00, `keep_all = 0`, `keep_daily = 2`,
`keep_weekly = 1` and snapshots 2021-10-20 12:00, 2021-10-19 12:00,
2021-10-18 12:00 (all in ISO week 42): the first run deletes only the
10-19 snapshot (10-20 vs 10-19 differ as daily dates; 10-19 is then marked
because it shares ISO week 42 with 10-18, which lies in the weekly tier).
The second run, on the survivors 10-20 and 10-18, compares them in the
weekly tier — same ISO week — and marks 10-20. -/
theorem c8_counterexample_second_run_deletes :
    cleanup_old_backups ⟨2021, 10, 21, 12, 0, 0⟩ ⟨some 0, some 2, some 1, none, none⟩
        (survivors ⟨2021, 10, 21, 12, 0, 0⟩ ⟨some 0, some 2, some 1, none, none⟩
          [⟨2021, 10, 20, 12, 0, 0⟩, ⟨2021, 10, 19, 12, 0, 0⟩, ⟨2021, 10, 18, 12, 0, 0⟩])
        = [⟨2021, 10, 20, 12, 0, 0⟩] ∧
      cleanup_old_backups ⟨2021, 10, 21, 12, 0, 0⟩ ⟨some 0, some 2, some 1, none, none⟩
        (survivors ⟨2021, 10, 21, 12, 0, 0⟩ ⟨some 0, some 2, some 1, none, none⟩
          [⟨2021, 10, 20, 12, 0, 0⟩, ⟨2021, 10, 19, 12, 0, 0⟩, ⟨2021, 10, 18, 12, 0, 0⟩])
        ≠ [] := by
  refine ⟨by decide, by decide⟩

/-- C8 (amended): a second retention run on the survivors can delete
further snapshots (see `c8_counterexample_second_run_deletes`), but
iterating the engine does stabilize: starting from any snapshot set, within
at most as many runs as there are snapshots one reaches a set on which a
run marks nothing for deletion. -/
theorem c8_amended_retention_reaches_fixpoint (now : DT) (cfg : RetCfg) (l : List DT) :
    ∃ k, k ≤ l.length ∧
      cleanup_old_backups now cfg ((fun s => survivors now cfg s)^[k] l) = [] := by
  have haux : ∀ n (l : List DT), l.length ≤ n →
      ∃ k, k ≤ l.length ∧
        cleanup_old_backups now cfg ((fun s => survivors now cfg s)^[k] l) = [] := by
    intro n
    induction n with
    | zero =>
        intro l hl
        have : l = [] := List.length_eq_zero.1 (Nat.le_zero.1 hl)
        subst this
        exact ⟨0, Nat.le_refl 0, rfl⟩
    | succ n ih =>
        intro l hl
        by_cases hc : cleanup_old_backups now cfg l = []
        · exact ⟨0, Nat.zero_le _, hc⟩
        · have hlt : (survivors now cfg l).length < l.length :=
            survivors_length_lt now cfg l hc
          obtain ⟨k, hk, hfix⟩ := ih (survivors now cfg l) (by omega)
          refine ⟨k + 1, by omega, ?_⟩
          rw [Function.iterate_succ_apply]
          exact hfix
  exact haux l.length l (Nat.le_refl _)

/-! ## Lemmas about the sync engine -/

theorem lookupMap_cons (xq : Path) (xe : Entry) (rest : EMap) (p : Path) :
    lookupMap ((xq, xe) :: rest) p = if xq = p then some xe else lookupMap rest p := rfl

theorem eraseMap_cons (xq : Path) (xe : Entry) (rest : EMap) (q : Path) :
    eraseMap ((xq, xe) :: rest) q
      = if xq = q then eraseMap rest q else (xq, xe) :: eraseMap rest q := rfl

theorem lookupMap_eraseMap_ne (m : EMap) (q p : Path) (h : p ≠ q) :
    lookupMap (eraseMap m q) p = lookupMap m p := by
  induction m with
  | nil => rfl
  | cons x rest ih =>
      obtain ⟨xq, xe⟩ := x
      rw [eraseMap_cons]
      by_cases hq : xq = q
      · rw [if_pos hq, ih, lookupMap_cons,
          if_neg (by rw [hq]; exact fun hh => h hh.symm)]
      · rw [if_neg hq, lookupMap_cons, lookupMap_cons]
        by_cases hp : xq = p
        · rw [if_pos hp, if_pos hp]
        · rw [if_neg hp, if_neg hp, ih]

theorem lookupMap_eraseMap_self (m : EMap) (q : Path) :
    lookupMap (eraseMap m q) q = none := by
  induction m with
  | nil => rfl
  | cons x rest ih =>
      obtain ⟨xq, xe⟩ := x
      rw [eraseMap_cons]
      by_cases hq : xq = q
      · rw [if_pos hq]; exact ih
      · rw [if_neg hq, lookupMap_cons, if_neg hq, ih]

theorem notmem_eraseMap (m : EMap) (q r : Path) (h : r ∉ m.map Prod.fst) :
    r ∉ (eraseMap m q).map Prod.fst := by
  induction m with
  | nil => exact h
  | cons x rest ih =>
      obtain ⟨xq, xe⟩ := x
      simp only [List.map_cons, List.mem_cons, not_or] at h
      rw [eraseMap_cons]
      by_cases hq : xq = q
      · rw [if_pos hq]; exact ih h.2
      · rw [if_neg hq]
        simp only [List.map_cons, List.mem_cons, not_or]
        exact ⟨h.1, ih h.2⟩

theorem notmem_eraseMap_self (m : EMap) (q : Path) :
    q ∉ (eraseMap m q).map Prod.fst := by
  induction m with
  | nil => simp [eraseMap]
  | cons x rest ih =>
      obtain ⟨xq, xe⟩ := x
      rw [eraseMap_cons]
      by_cases hq : xq = q
      · rw [if_pos hq]; exact ih
      · rw [if_neg hq]
        simp only [List.map_cons, List.mem_cons, not_or]
        exact ⟨fun hh => hq hh.symm, ih⟩

/-- Equation lemma: the delete branch of `rsyncStep`. -/
theorem rsyncStep_none (m : EMap) (st : SyncSt) (p : Path) (dstE : Entry)
    (h : lookupMap m p = none) :
    rsyncStep m st p dstE
      = (m, { st with fs := rm_direntry dstE.kind p st.fs }, [(p, Actions.DELETE, "")]) := by
  unfold rsyncStep
  rw [h]

/-- Equation lemma: the claimed branch of `rsyncStep`. -/
theorem rsyncStep_some (m : EMap) (st : SyncSt) (p : Path) (dstE srcE : Entry)
    (h : lookupMap m p = some srcE) :
    rsyncStep m st p dstE =
      (if srcE.kind = .file ∧ dstE.kind ≠ .file then
        (eraseMap m p, update_direntry srcE dstE p st, [(p, Actions.REWRITE, "")])
      else if srcE.kind = .dir ∧ dstE.kind ≠ .dir then
        (eraseMap m p, update_direntry srcE dstE p st, [(p, Actions.REWRITE, "")])
      else if srcE.kind = .symlink ∧ dstE.kind ≠ .symlink then
        (eraseMap m p, update_direntry srcE dstE p st, [(p, Actions.REWRITE, "")])
      else if srcE.ino = dstE.ino then
        (eraseMap m p, update_direntry srcE dstE p st, [(p, Actions.REWRITE, "")])
      else if srcE.kind = .file ∧ ¬(srcE.size = dstE.size ∧ srcE.mtime = dstE.mtime) then
        (eraseMap m p, update_direntry srcE dstE p st, [(p, Actions.REWRITE, "")])
      else if srcE.kind = .symlink ∧ srcE.target ≠ dstE.target then
        (eraseMap m p, update_direntry srcE dstE p st, [(p, Actions.REWRITE, "")])
      else
        (eraseMap m p, (permOwnerStep srcE dstE p st).1, (permOwnerStep srcE dstE p st).2)) := by
  unfold rsyncStep
  rw [h]

theorem rsyncStep_map_cases (m : EMap) (st : SyncSt) (p : Path) (dstE : Entry) :
    (rsyncStep m st p dstE).1 = m ∨ (rsyncStep m st p dstE).1 = eraseMap m p := by
  cases hl : lookupMap m p with
  | none => rw [rsyncStep_none m st p dstE hl]; exact Or.inl rfl
  | some srcE =>
      rw [rsyncStep_some m st p dstE srcE hl]
      split_ifs <;> exact Or.inr rfl

theorem rsyncStep_claimed_map (m : EMap) (st : SyncSt) (p : Path) (dstE srcE : Entry)
    (h : lookupMap m p = some srcE) :
    (rsyncStep m st p dstE).1 = eraseMap m p := by
  rw [rsyncStep_some m st p dstE srcE h]
  split_ifs <;> rfl

theorem rsyncStep_lookup_pres (m : EMap) (st : SyncSt) (p : Path) (dstE : Entry)
    (r : Path) (h : r ≠ p) :
    lookupMap (rsyncStep m st p dstE).1 r = lookupMap m r := by
  rcases rsyncStep_map_cases m st p dstE with hc | hc
  · rw [hc]
  · rw [hc, lookupMap_eraseMap_ne m p r h]

theorem rsyncStep_notmem_pres (m : EMap) (st : SyncSt) (p : Path) (dstE : Entry)
    (r : Path) (h : r ∉ m.map Prod.fst) :
    r ∉ (rsyncStep m st p dstE).1.map Prod.fst := by
  rcases rsyncStep_map_cases m st p dstE with hc | hc
  · rw [hc]; exact h
  · rw [hc]; exact notmem_eraseMap m p r h

theorem adjust_ne {p r : Path} (h : r ≠ p) (f : Entry → Entry) (fs : FS) :
    adjust p f fs r = fs r := if_neg h

theorem rm_direntry_pres (k : EKind) (p r : Path) (fs : FS) (hne : r ≠ p)
    (hpre : k = .dir → ¬ p.isPrefixOf r) :
    rm_direntry k p fs r = fs r := by
  cases k with
  | file => exact if_neg hne
  | symlink => exact if_neg hne
  | dir => exact if_neg (hpre rfl)
  | other => rfl

theorem update_direntry_fs_ne (srcE dstE : Entry) (p : Path) (st : SyncSt) (r : Path)
    (hne : r ≠ p) (hpre : dstE.kind = .dir → ¬ p.isPrefixOf r) :
    (update_direntry srcE dstE p st).fs r = st.fs r := by
  have h1 : (update_direntry srcE dstE p st).fs r
      = rm_direntry dstE.kind p st.fs r := if_neg hne
  rw [h1]
  exact rm_direntry_pres dstE.kind p r st.fs hne hpre

theorem permOwnerStep_fs_ne (srcE dstE : Entry) (p : Path) (st : SyncSt) (r : Path)
    (hne : r ≠ p) :
    (permOwnerStep srcE dstE p st).1.fs r = st.fs r := by
  unfold permOwnerStep
  split_ifs <;> simp only [adjust_ne hne]

theorem permOwnerStep_nextIno (srcE dstE : Entry) (p : Path) (st : SyncSt) :
    (permOwnerStep srcE dstE p st).1.nextIno = st.nextIno := by
  unfold permOwnerStep
  split_ifs <;> rfl

theorem rsyncStep_nextIno_le (m : EMap) (st : SyncSt) (p : Path) (dstE : Entry) :
    st.nextIno ≤ (rsyncStep m st p dstE).2.1.nextIno := by
  cases hl : lookupMap m p with
  | none => rw [rsyncStep_none m st p dstE hl]
  | some srcE =>
      rw [rsyncStep_some m st p dstE srcE hl]
      split_ifs <;>
        simp only [update_direntry, freshCopy, permOwnerStep_nextIno] <;>
        omega

theorem rsyncStep_fs_pres (m : EMap) (st : SyncSt) (p : Path) (dstE : Entry) (r : Path)
    (hne : r ≠ p)
    (hanc : p.isPrefixOf r →
      ∃ sq, lookupMap m p = some sq ∧ sq.kind = .dir ∧ dstE.kind = .dir ∧ sq.ino ≠ dstE.ino) :
    (rsyncStep m st p dstE).2.1.fs r = st.fs r := by
  cases hl : lookupMap m p with
  | none =>
      rw [rsyncStep_none m st p dstE hl]
      refine rm_direntry_pres dstE.kind p r st.fs hne ?_
      intro _ hp
      obtain ⟨sq, hsq, -⟩ := hanc hp
      rw [hl] at hsq
      exact Option.noConfusion hsq
  | some sq =>
      rw [rsyncStep_some m st p dstE sq hl]
      by_cases hpre : p.isPrefixOf r
      · obtain ⟨sq2, hl2, hkd, hdd, hino⟩ := hanc hpre
        rw [hl] at hl2
        obtain rfl : sq = sq2 := by injection hl2
        -- the inode condition is resolved by `hino`, so `split_ifs` leaves
        -- the three type branches, the two content branches and the final
        -- permission/ownership branch
        split_ifs with h1 h2 h3 h4 h5
        · rw [hkd] at h1; simp at h1
        · rw [hdd] at h2; simp at h2
        · rw [hkd] at h3; simp at h3
        · rw [hkd] at h4; simp at h4
        · rw [hkd] at h5; simp at h5
        · exact permOwnerStep_fs_ne sq dstE p st r hne
      · split_ifs <;>
          first
          | exact update_direntry_fs_ne _ dstE p st r hne (fun _ => hpre)
          | exact permOwnerStep_fs_ne sq dstE p st r hne

theorem rsyncWalk_cons (m : EMap) (st : SyncSt) (x : Path × Entry)
    (xs : List (Path × Entry)) :
    rsyncWalk m st (x :: xs)
      = ((rsyncWalk (rsyncStep m st x.1 x.2).1 (rsyncStep m st x.1 x.2).2.1 xs).1,
         (rsyncWalk (rsyncStep m st x.1 x.2).1 (rsyncStep m st x.1 x.2).2.1 xs).2.1,
         (rsyncStep m st x.1 x.2).2.2
           ++ (rsyncWalk (rsyncStep m st x.1 x.2).1 (rsyncStep m st x.1 x.2).2.1 xs).2.2) := rfl

theorem rsyncWalk_append (l1 l2 : List (Path × Entry)) : ∀ (m : EMap) (st : SyncSt),
    rsyncWalk m st (l1 ++ l2)
      = ((rsyncWalk (rsyncWalk m st l1).1 (rsyncWalk m st l1).2.1 l2).1,
         (rsyncWalk (rsyncWalk m st l1).1 (rsyncWalk m st l1).2.1 l2).2.1,
         (rsyncWalk m st l1).2.2
           ++ (rsyncWalk (rsyncWalk m st l1).1 (rsyncWalk m st l1).2.1 l2).2.2) := by
  induction l1 with
  | nil => intro m st; rfl
  | cons x xs ih =>
      intro m st
      rw [List.cons_append, rsyncWalk_cons, rsyncWalk_cons, ih]
      simp [List.append_assoc]

theorem rsyncWalk_lookup_pres (l : List (Path × Entry)) :
    ∀ (m : EMap) (st : SyncSt) (r : Path), r ∉ l.map Prod.fst →
      lookupMap (rsyncWalk m st l).1 r = lookupMap m r := by
  induction l with
  | nil => intro m st r _; rfl
  | cons x xs ih =>
      intro m st r h
      simp only [List.map_cons, List.mem_cons, not_or] at h
      rw [rsyncWalk_cons]
      rw [ih _ _ _ h.2, rsyncStep_lookup_pres m st x.1 x.2 r h.1]

theorem rsyncWalk_notmem_pres (l : List (Path × Entry)) :
    ∀ (m : EMap) (st : SyncSt) (r : Path), r ∉ m.map Prod.fst →
      r ∉ (rsyncWalk m st l).1.map Prod.fst := by
  induction l with
  | nil => intro m st r h; exact h
  | cons x xs ih =>
      intro m st r h
      rw [rsyncWalk_cons]
      exact ih _ _ _ (rsyncStep_notmem_pres m st x.1 x.2 r h)

theorem rsyncWalk_nextIno_le (l : List (Path × Entry)) :
    ∀ (m : EMap) (st : SyncSt), st.nextIno ≤ (rsyncWalk m st l).2.1.nextIno := by
  induction l with
  | nil => intro m st; exact Nat.le_refl _
  | cons x xs ih =>
      intro m st
      rw [rsyncWalk_cons]
      exact Nat.le_trans (rsyncStep_nextIno_le m st x.1 x.2) (ih _ _)

theorem rsyncWalk_fs_pres (r : Path) (l : List (Path × Entry)) :
    ∀ (m : EMap) (st : SyncSt),
      (l.map Prod.fst).Nodup →
      (∀ pe ∈ l, pe.1 ≠ r ∧
        (pe.1.isPrefixOf r → ∃ sq, lookupMap m pe.1 = some sq ∧ sq.kind = .dir ∧
          pe.2.kind = .dir ∧ sq.ino ≠ pe.2.ino)) →
      (rsyncWalk m st l).2.1.fs r = st.fs r := by
  induction l with
  | nil => intro m st _ _; rfl
  | cons x xs ih =>
      intro m st hnodup h
      simp only [List.map_cons, List.nodup_cons] at hnodup
      have hx := h x (List.mem_cons_self x xs)
      rw [rsyncWalk_cons]
      have htrans : ∀ pe ∈ xs, pe.1 ≠ r ∧
          (pe.1.isPrefixOf r → ∃ sq, lookupMap (rsyncStep m st x.1 x.2).1 pe.1 = some sq ∧
            sq.kind = .dir ∧ pe.2.kind = .dir ∧ sq.ino ≠ pe.2.ino) := by
        intro pe hpe
        have hp := h pe (List.mem_cons_of_mem x hpe)
        refine ⟨hp.1, fun hpref => ?_⟩
        obtain ⟨sq, hsq, h1, h2, h3⟩ := hp.2 hpref
        have hne : pe.1 ≠ x.1 := by
          intro hh
          exact hnodup.1 (hh ▸ List.mem_map_of_mem Prod.fst hpe)
        exact ⟨sq, by rw [rsyncStep_lookup_pres m st x.1 x.2 pe.1 hne, hsq], h1, h2, h3⟩
      rw [ih _ _ hnodup.2 htrans]
      exact rsyncStep_fs_pres m st x.1 x.2 r (Ne.symm hx.1) hx.2

theorem rsyncStep_same_ino (m : EMap) (st : SyncSt) (p : Path) (dstE srcE : Entry)
    (hl : lookupMap m p = some srcE) (hino : srcE.ino = dstE.ino) :
    rsyncStep m st p dstE
      = (eraseMap m p, update_direntry srcE dstE p st, [(p, Actions.REWRITE, "")]) := by
  rw [rsyncStep_some m st p dstE srcE hl]
  split_ifs <;> rfl

theorem update_direntry_fs_self (srcE dstE : Entry) (p : Path) (st : SyncSt) :
    (update_direntry srcE dstE p st).fs p = some (copy_direntry srcE st.nextIno)
      ∧ (update_direntry srcE dstE p st).nextIno = st.nextIno + 1 :=
  ⟨if_pos rfl, rfl⟩

theorem rsyncWalk_claimed_erased (l1 l2 : List (Path × Entry)) (p : Path) (dstE : Entry)
    (m : EMap) (st : SyncSt) (srcE : Entry)
    (hnodup : ((l1 ++ (p, dstE) :: l2).map Prod.fst).Nodup)
    (hl : lookupMap m p = some srcE) :
    p ∉ (rsyncWalk m st (l1 ++ (p, dstE) :: l2)).1.map Prod.fst := by
  rw [rsyncWalk_append]
  have hmap : (l1 ++ (p, dstE) :: l2).map Prod.fst
      = l1.map Prod.fst ++ p :: l2.map Prod.fst := by simp
  rw [hmap, List.nodup_append] at hnodup
  have hp1 : p ∉ l1.map Prod.fst :=
    fun hp => hnodup.2.2 hp (List.mem_cons_self p _)
  have hl1 : lookupMap (rsyncWalk m st l1).1 p = some srcE := by
    rw [rsyncWalk_lookup_pres l1 m st p hp1, hl]
  rw [rsyncWalk_cons]
  refine rsyncWalk_notmem_pres l2 _ _ p ?_
  rw [rsyncStep_claimed_map _ _ _ _ srcE hl1]
  exact notmem_eraseMap_self _ p

theorem rsyncCreate_fs_pres (m : EMap) : ∀ (st : SyncSt) (r : Path),
    r ∉ m.map Prod.fst → (rsyncCreate st m).1.fs r = st.fs r := by
  induction m with
  | nil => intro st r _; rfl
  | cons x xs ih =>
      intro st r h
      obtain ⟨xq, xe⟩ := x
      simp only [List.map_cons, List.mem_cons, not_or] at h
      show (rsyncCreate (freshCopy xe xq st) xs).1.fs r = st.fs r
      rw [ih _ r h.2]
      exact if_neg h.1

theorem rsyncCreate_out (m : EMap) : ∀ (st : SyncSt) (t : Triple),
    t ∈ (rsyncCreate st m).2 → t.2.1 = Actions.CREATE ∧ t.1 ∈ m.map Prod.fst := by
  induction m with
  | nil => intro st t ht; exact absurd ht (List.not_mem_nil t)
  | cons x xs ih =>
      intro st t ht
      obtain ⟨xq, xe⟩ := x
      rcases List.mem_cons.1 ht with rfl | ht2
      · exact ⟨rfl, List.mem_cons_self _ _⟩
      · obtain ⟨h1, h2⟩ := ih _ t ht2
        exact ⟨h1, List.mem_cons_of_mem _ h2⟩

theorem adjust_ino (q : Path) (f : Entry → Entry) (hf : ∀ e, (f e).ino = e.ino)
    (fs : FS) (r : Path) :
    ((adjust q f fs) r).map Entry.ino = (fs r).map Entry.ino := by
  by_cases h : r = q
  · show ((if r = q then (fs r).map f else fs r)).map Entry.ino = (fs r).map Entry.ino
    rw [if_pos h]
    cases fs r with
    | none => rfl
    | some e => simp [hf]
  · exact congrArg (Option.map Entry.ino) (adjust_ne (p := q) h f fs)

theorem restoreDirStep_ino (pe : Path × Entry) (st : SyncSt) (r : Path) :
    ((restoreDirStep pe st).fs r).map Entry.ino = (st.fs r).map Entry.ino := by
  unfold restoreDirStep
  split
  · split
    · split
      · exact adjust_ino pe.1
          (fun e => { e with mtime := pe.2.mtime, atime := pe.2.atime })
          (fun e => rfl) st.fs r
      · rfl
    · rfl
  · rfl

theorem restoreDirTimes_ino (srcList : EMap) : ∀ (st : SyncSt) (r : Path),
    ((restoreDirTimes srcList st).fs r).map Entry.ino = (st.fs r).map Entry.ino := by
  induction srcList with
  | nil => intro st r; rfl
  | cons x xs ih =>
      intro st r
      show ((restoreDirTimes xs (restoreDirStep x st)).fs r).map Entry.ino
        = (st.fs r).map Entry.ino
      rw [ih _ r, restoreDirStep_ino]

theorem restoreRootTime_ino (srcRoot : Entry) (st : SyncSt) (r : Path) :
    ((restoreRootTime srcRoot st).fs r).map Entry.ino = (st.fs r).map Entry.ino := by
  unfold restoreRootTime
  split
  · split
    · exact adjust_ino []
        (fun e => { e with mtime := srcRoot.mtime, atime := srcRoot.atime })
        (fun e => rfl) st.fs r
    · rfl
  · rfl

theorem permOwnerStep_out (srcE dstE : Entry) (p : Path) (st : SyncSt) :
    ∀ t ∈ (permOwnerStep srcE dstE p st).2,
      t.1 = p ∧ (t.2.1 = Actions.UPDATE_PERM ∨ t.2.1 = Actions.UPDATE_OWNER) := by
  unfold permOwnerStep
  split_ifs <;> intro t ht <;>
    simp only [List.mem_cons, List.not_mem_nil, or_false] at ht
  · rcases ht with rfl | rfl
    · exact ⟨rfl, Or.inl rfl⟩
    · exact ⟨rfl, Or.inr rfl⟩
  · subst ht; exact ⟨rfl, Or.inl rfl⟩
  · subst ht; exact ⟨rfl, Or.inr rfl⟩

theorem rsyncStep_out (m : EMap) (st : SyncSt) (p : Path) (dstE : Entry) :
    ∀ t ∈ (rsyncStep m st p dstE).2.2,
      t.1 = p ∧ (t.2.1 = Actions.DELETE ∨ t.2.1 = Actions.REWRITE ∨
        t.2.1 = Actions.UPDATE_PERM ∨ t.2.1 = Actions.UPDATE_OWNER) := by
  intro t ht
  cases hl : lookupMap m p with
  | none =>
      rw [rsyncStep_none m st p dstE hl] at ht
      simp at ht
      subst ht
      exact ⟨rfl, Or.inl rfl⟩
  | some sq =>
      rw [rsyncStep_some m st p dstE sq hl] at ht
      split_ifs at ht <;>
        first
        | (simp at ht; subst ht; exact ⟨rfl, Or.inr (Or.inl rfl)⟩)
        | (obtain ⟨h1, h2⟩ := permOwnerStep_out sq dstE p st t ht
           exact ⟨h1, by tauto⟩)

theorem rsyncWalk_out (l : List (Path × Entry)) :
    ∀ (m : EMap) (st : SyncSt) (t : Triple), t ∈ (rsyncWalk m st l).2.2 →
      t.1 ∈ l.map Prod.fst ∧ (t.2.1 = Actions.DELETE ∨ t.2.1 = Actions.REWRITE ∨
        t.2.1 = Actions.UPDATE_PERM ∨ t.2.1 = Actions.UPDATE_OWNER) := by
  induction l with
  | nil => intro m st t ht; exact absurd ht (List.not_mem_nil t)
  | cons x xs ih =>
      intro m st t ht
      rw [rsyncWalk_cons] at ht
      rcases List.mem_append.1 ht with h | h
      · obtain ⟨h1, h2⟩ := rsyncStep_out m st x.1 x.2 t h
        exact ⟨by rw [List.map_cons, h1]; exact List.mem_cons_self _ _, h2⟩
      · obtain ⟨h1, h2⟩ := ih _ _ t h
        exact ⟨by rw [List.map_cons]; exact List.mem_cons_of_mem _ h1, h2⟩

theorem rsyncStep_identical (m : EMap) (st : SyncSt) (p : Path) (dstE srcE : Entry)
    (hl : lookupMap m p = some srcE)
    (hkind : srcE.kind = dstE.kind) (hino : srcE.ino ≠ dstE.ino)
    (hsize : srcE.size = dstE.size) (hmtime : srcE.mtime = dstE.mtime)
    (htarget : srcE.target = dstE.target) (hmode : srcE.mode = dstE.mode)
    (huid : srcE.uid = dstE.uid) (hgid : srcE.gid = dstE.gid) :
    rsyncStep m st p dstE = (eraseMap m p, st, []) := by
  rw [rsyncStep_some m st p dstE srcE hl]
  have hperm : permOwnerStep srcE dstE p st = (st, []) := by
    unfold permOwnerStep
    rw [if_neg (by simp [hmode]), if_neg (by simp [huid, hgid])]
  rw [if_neg (fun h => h.2 (hkind.symm.trans h.1)),
    if_neg (fun h => h.2 (hkind.symm.trans h.1)),
    if_neg (fun h => h.2 (hkind.symm.trans h.1)),
    if_neg hino,
    if_neg (fun h => h.2 ⟨hsize, hmtime⟩),
    if_neg (fun h => h.2 htarget),
    hperm]

theorem rsyncWalk_cons_pair (m : EMap) (st : SyncSt) (p : Path) (e : Entry)
    (xs : List (Path × Entry)) :
    rsyncWalk m st ((p, e) :: xs)
      = ((rsyncWalk (rsyncStep m st p e).1 (rsyncStep m st p e).2.1 xs).1,
         (rsyncWalk (rsyncStep m st p e).1 (rsyncStep m st p e).2.1 xs).2.1,
         (rsyncStep m st p e).2.2
           ++ (rsyncWalk (rsyncStep m st p e).1 (rsyncStep m st p e).2.1 xs).2.2) := rfl

/-- `rsync` written out as its four passes. -/
theorem rsync_eq (dryRun : Bool) (srcList dstList : EMap) (srcRoot dstRoot : Entry)
    (ino0 : Nat) :
    rsync dryRun srcList dstList srcRoot dstRoot ino0
      = ((rsyncWalk srcList ⟨fsOfList dstList dstRoot, ino0⟩ dstList).2.2
           ++ (rsyncCreate (rsyncWalk srcList ⟨fsOfList dstList dstRoot, ino0⟩ dstList).2.1
                 (rsyncWalk srcList ⟨fsOfList dstList dstRoot, ino0⟩ dstList).1).2,
         restoreRootTime srcRoot
           (restoreDirTimes srcList
             (rsyncCreate (rsyncWalk srcList ⟨fsOfList dstList dstRoot, ino0⟩ dstList).2.1
               (rsyncWalk srcList ⟨fsOfList dstList dstRoot, ino0⟩ dstList).1).1)) := rfl

/-! ## Claim C1 -/

/-- C1: a destination entry sharing its inode with the corresponding source
entry is never edited in place: the sync engine always emits `rewrite` for
that path and rebuilds the destination entry (`update_direntry` = delete
then recreate from source, fs.py:329-336), so after the call the
destination holds a freshly allocated inode (`≥ ino0 > srcE.ino`) and no
longer shares the source's inode.  Hypotheses: the path is listed in the
destination traversal; the source map claims it; destination traversal
paths are unique; the path is not the tree root; and each ancestor of the
path that the destination traversal lists is a directory on both sides with
distinct inodes (directories cannot be hardlinked on POSIX, so a source and
a destination directory never share an inode). -/
theorem c1_same_inode_always_rewritten (dryRun : Bool) (srcList dstList : EMap)
    (srcRoot dstRoot : Entry) (ino0 : Nat) (p : Path) (srcE dstE : Entry)
    (hmem : (p, dstE) ∈ dstList)
    (hlook : lookupMap srcList p = some srcE)
    (hino : srcE.ino = dstE.ino)
    (hbound : srcE.ino < ino0)
    (hnodup : (dstList.map Prod.fst).Nodup)
    (hanc : ∀ qe ∈ dstList, qe.1 ≠ p → qe.1.isPrefixOf p →
      ∃ sq, lookupMap srcList qe.1 = some sq ∧ sq.kind = .dir ∧ qe.2.kind = .dir ∧
        sq.ino ≠ qe.2.ino) :
    (p, Actions.REWRITE, "") ∈ (rsync dryRun srcList dstList srcRoot dstRoot ino0).1 ∧
      ∃ n, ino0 ≤ n ∧ n ≠ srcE.ino ∧
        ((rsync dryRun srcList dstList srcRoot dstRoot ino0).2.fs p).map Entry.ino
          = some n := by
  obtain ⟨l1, l2, rfl⟩ := List.append_of_mem hmem
  rw [rsync_eq]
  have hmapf : ((l1 ++ (p, dstE) :: l2).map Prod.fst)
      = l1.map Prod.fst ++ p :: l2.map Prod.fst := by simp
  have hnd := hnodup
  rw [hmapf, List.nodup_append] at hnd
  have hp1 : p ∉ l1.map Prod.fst := fun hp => hnd.2.2 hp (List.mem_cons_self _ _)
  have hpl2 : p ∉ l2.map Prod.fst := (List.nodup_cons.1 hnd.2.1).1
  have hl2nd : (l2.map Prod.fst).Nodup := (List.nodup_cons.1 hnd.2.1).2
  have hdisj : ∀ r ∈ l2.map Prod.fst, r ∉ l1.map Prod.fst := by
    intro r hr hrl1
    exact hnd.2.2 hrl1 (List.mem_cons_of_mem _ hr)
  set st0 : SyncSt := ⟨fsOfList (l1 ++ (p, dstE) :: l2) dstRoot, ino0⟩ with hst0
  set M1 := (rsyncWalk srcList st0 l1).1 with hM1
  set S1 := (rsyncWalk srcList st0 l1).2.1 with hS1
  have hl1 : lookupMap M1 p = some srcE := by
    rw [hM1, rsyncWalk_lookup_pres l1 srcList st0 p hp1, hlook]
  have hstep := rsyncStep_same_ino M1 S1 p dstE srcE hl1 hino
  have hsplit := rsyncWalk_append l1 ((p, dstE) :: l2) srcList st0
  have hhyp : ∀ qe ∈ l2, qe.1 ≠ p ∧
      (qe.1.isPrefixOf p → ∃ sq,
        lookupMap (eraseMap M1 p) qe.1 = some sq ∧ sq.kind = .dir ∧ qe.2.kind = .dir ∧
          sq.ino ≠ qe.2.ino) := by
    intro qe hqe
    have hqep : qe.1 ≠ p := by
      intro hh
      exact hpl2 (hh ▸ List.mem_map_of_mem Prod.fst hqe)
    refine ⟨hqep, fun hpref => ?_⟩
    obtain ⟨sq, hsq, hk, hd, hi⟩ :=
      hanc qe (List.mem_append_right _ (List.mem_cons_of_mem _ hqe)) hqep hpref
    refine ⟨sq, ?_, hk, hd, hi⟩
    rw [lookupMap_eraseMap_ne _ p qe.1 hqep, hM1,
      rsyncWalk_lookup_pres l1 srcList st0 qe.1
        (hdisj qe.1 (List.mem_map_of_mem Prod.fst hqe)),
      hsq]
  have hpres := rsyncWalk_fs_pres p l2 (eraseMap M1 p)
    (update_direntry srcE dstE p S1) hl2nd hhyp
  have hfs_after_walk :
      (rsyncWalk srcList st0 (l1 ++ (p, dstE) :: l2)).2.1.fs p
        = some (copy_direntry srcE S1.nextIno) := by
    rw [hsplit]
    dsimp only
    rw [rsyncWalk_cons_pair]
    dsimp only
    rw [hstep]
    dsimp only
    rw [hpres]
    exact (update_direntry_fs_self srcE dstE p S1).1
  have hmemout : (p, Actions.REWRITE, "")
      ∈ (rsyncWalk srcList st0 (l1 ++ (p, dstE) :: l2)).2.2 := by
    rw [hsplit]
    dsimp only
    rw [rsyncWalk_cons_pair]
    dsimp only
    rw [hstep]
    dsimp only
    exact List.mem_append_right _ (List.mem_append_left _ (List.mem_cons_self _ _))
  have hnotmem3 : p ∉ ((rsyncWalk srcList st0 (l1 ++ (p, dstE) :: l2)).1).map Prod.fst :=
    rsyncWalk_claimed_erased l1 l2 p dstE srcList st0 srcE hnodup hlook
  have hino_le : ino0 ≤ S1.nextIno := rsyncWalk_nextIno_le l1 srcList st0
  constructor
  · exact List.mem_append_left _ hmemout
  · refine ⟨S1.nextIno, hino_le, by omega, ?_⟩
    dsimp only
    rw [restoreRootTime_ino, restoreDirTimes_ino,
      rsyncCreate_fs_pres _ _ p hnotmem3, hfs_after_walk]
    rfl

/-! ## Claim C10 -/

/-- C10: (a) every triple the built-in sync engine yields carries one of
`delete`, `rewrite`, `update-permission`, `update-owner`, `create`,
`error` — never `no-change` (`NOTHING`) and never `update-time`
(`UPDATE_TIME`, which only the external-rsync output parser can produce);
(b) an entry that is fully identical in source and destination (same type,
different inode, same size, mtime, symlink target, permissions and owner)
produces no triple at all for its path. -/
theorem c10_action_vocabulary (dryRun : Bool) (srcList dstList : EMap)
    (srcRoot dstRoot : Entry) (ino0 : Nat) :
    (∀ t ∈ (rsync dryRun srcList dstList srcRoot dstRoot ino0).1,
       t.2.1 = Actions.DELETE ∨ t.2.1 = Actions.REWRITE ∨
       t.2.1 = Actions.UPDATE_PERM ∨ t.2.1 = Actions.UPDATE_OWNER ∨
       t.2.1 = Actions.CREATE ∨ t.2.1 = Actions.ERROR) ∧
    (∀ (p : Path) (srcE dstE : Entry),
      (dstList.map Prod.fst).Nodup →
      lookupMap srcList p = some srcE → (p, dstE) ∈ dstList →
      srcE.kind = dstE.kind → srcE.ino ≠ dstE.ino → srcE.size = dstE.size →
      srcE.mtime = dstE.mtime → srcE.target = dstE.target →
      srcE.mode = dstE.mode → srcE.uid = dstE.uid → srcE.gid = dstE.gid →
      ∀ t ∈ (rsync dryRun srcList dstList srcRoot dstRoot ino0).1, t.1 ≠ p) := by
  constructor
  · rw [rsync_eq]
    intro t ht
    rcases List.mem_append.1 ht with h | h
    · obtain ⟨-, h2⟩ := rsyncWalk_out dstList _ _ t h
      tauto
    · obtain ⟨h1, -⟩ := rsyncCreate_out _ _ t h
      tauto
  · intro p srcE dstE hnodup hlook hmem hkind hino hsize hmtime htarget hmode huid hgid
    obtain ⟨l1, l2, rfl⟩ := List.append_of_mem hmem
    rw [rsync_eq]
    have hmapf : ((l1 ++ (p, dstE) :: l2).map Prod.fst)
        = l1.map Prod.fst ++ p :: l2.map Prod.fst := by simp
    have hnd := hnodup
    rw [hmapf, List.nodup_append] at hnd
    have hp1 : p ∉ l1.map Prod.fst := fun hp => hnd.2.2 hp (List.mem_cons_self _ _)
    have hpl2 : p ∉ l2.map Prod.fst := (List.nodup_cons.1 hnd.2.1).1
    set st0 : SyncSt := ⟨fsOfList (l1 ++ (p, dstE) :: l2) dstRoot, ino0⟩ with hst0
    set M1 := (rsyncWalk srcList st0 l1).1 with hM1
    set S1 := (rsyncWalk srcList st0 l1).2.1 with hS1
    have hl1 : lookupMap M1 p = some srcE := by
      rw [hM1, rsyncWalk_lookup_pres l1 srcList st0 p hp1, hlook]
    have hstep := rsyncStep_identical M1 S1 p dstE srcE hl1 hkind hino hsize hmtime
      htarget hmode huid hgid
    have hsplit := rsyncWalk_append l1 ((p, dstE) :: l2) srcList st0
    have hnotmem3 : p ∉ ((rsyncWalk srcList st0 (l1 ++ (p, dstE) :: l2)).1).map Prod.fst :=
      rsyncWalk_claimed_erased l1 l2 p dstE srcList st0 srcE hnodup hlook
    intro t ht hne
    subst hne
    rcases List.mem_append.1 ht with h | h
    · rw [hsplit] at h
      dsimp only at h
      rw [rsyncWalk_cons_pair] at h
      dsimp only at h
      rw [hstep] at h
      dsimp only at h
      rcases List.mem_append.1 h with h2 | h2
      · exact hp1 ((rsyncWalk_out l1 srcList st0 t h2).1)
      · rcases List.mem_append.1 h2 with h3 | h3
        · exact absurd h3 (List.not_mem_nil t)
        · exact hpl2 ((rsyncWalk_out l2 _ _ t h3).1)
    · exact hnotmem3 ((rsyncCreate_out _ _ t h).2)

/-- Witness for C10 at a concrete input: source and destination each hold
one regular file `a`, identical except for the inode; the engine yields no
triple whose path is `a`. -/
theorem c10_action_vocabulary_witness :
    ((([(["a"], ⟨EKind.file, 2, 10, 100, 100, 420, 0, 0, ""⟩)] : EMap).map Prod.fst).Nodup
        ∧ lookupMap [(["a"], ⟨EKind.file, 1, 10, 100, 100, 420, 0, 0, ""⟩)] ["a"]
            = some ⟨EKind.file, 1, 10, 100, 100, 420, 0, 0, ""⟩) ∧
      ∀ t ∈ (rsync false [(["a"], ⟨EKind.file, 1, 10, 100, 100, 420, 0, 0, ""⟩)]
          [(["a"], ⟨EKind.file, 2, 10, 100, 100, 420, 0, 0, ""⟩)]
          ⟨EKind.dir, 3, 0, 200, 200, 493, 0, 0, ""⟩
          ⟨EKind.dir, 4, 0, 200, 200, 493, 0, 0, ""⟩ 10).1, t.1 ≠ ["a"] :=
  ⟨⟨by decide, by decide⟩,
    (c10_action_vocabulary false
        [(["a"], ⟨EKind.file, 1, 10, 100, 100, 420, 0, 0, ""⟩)]
        [(["a"], ⟨EKind.file, 2, 10, 100, 100, 420, 0, 0, ""⟩)]
        ⟨EKind.dir, 3, 0, 200, 200, 493, 0, 0, ""⟩
        ⟨EKind.dir, 4, 0, 200, 200, 493, 0, 0, ""⟩ 10).2
      ["a"] ⟨EKind.file, 1, 10, 100, 100, 420, 0, 0, ""⟩
      ⟨EKind.file, 2, 10, 100, 100, 420, 0, 0, ""⟩
      (by decide) (by decide) (by decide) (by decide) (by decide) (by decide)
      (by decide) (by decide) (by decide) (by decide) (by decide)⟩

/-- Witness for C1 at a concrete input: one regular file `a` hardlinked
between source and destination (same inode 1); the engine rewrites it and
the destination ends with a fresh inode. -/
theorem c1_same_inode_always_rewritten_witness :
    (lookupMap [(["a"], ⟨EKind.file, 1, 5, 50, 50, 420, 0, 0, ""⟩)] ["a"]
        = some ⟨EKind.file, 1, 5, 50, 50, 420, 0, 0, ""⟩) ∧
      ((["a"], Actions.REWRITE, "")
          ∈ (rsync false [(["a"], ⟨EKind.file, 1, 5, 50, 50, 420, 0, 0, ""⟩)]
              [(["a"], ⟨EKind.file, 1, 5, 50, 50, 420, 0, 0, ""⟩)]
              ⟨EKind.dir, 2, 0, 60, 60, 493, 0, 0, ""⟩
              ⟨EKind.dir, 3, 0, 60, 60, 493, 0, 0, ""⟩ 10).1 ∧
        ∃ n, 10 ≤ n ∧ n ≠ (⟨EKind.file, 1, 5, 50, 50, 420, 0, 0, ""⟩ : Entry).ino ∧
          ((rsync false [(["a"], ⟨EKind.file, 1, 5, 50, 50, 420, 0, 0, ""⟩)]
              [(["a"], ⟨EKind.file, 1, 5, 50, 50, 420, 0, 0, ""⟩)]
              ⟨EKind.dir, 2, 0, 60, 60, 493, 0, 0, ""⟩
              ⟨EKind.dir, 3, 0, 60, 60, 493, 0, 0, ""⟩ 10).2.fs ["a"]).map Entry.ino
            = some n) :=
  ⟨by decide,
    c1_same_inode_always_rewritten false
      [(["a"], ⟨EKind.file, 1, 5, 50, 50, 420, 0, 0, ""⟩)]
      [(["a"], ⟨EKind.file, 1, 5, 50, 50, 420, 0, 0, ""⟩)]
      ⟨EKind.dir, 2, 0, 60, 60, 493, 0, 0, ""⟩
      ⟨EKind.dir, 3, 0, 60, 60, 493, 0, 0, ""⟩ 10 ["a"]
      ⟨EKind.file, 1, 5, 50, 50, 420, 0, 0, ""⟩
      ⟨EKind.file, 1, 5, 50, 50, 420, 0, 0, ""⟩
      (by decide) (by decide) (by decide) (by decide) (by decide)
      (by
        intro qe hqe hne hpre
        rcases List.mem_singleton.1 hqe with rfl
        exact absurd rfl hne)⟩

/-! ## Claim C3 -/

/-- C3: when source and destination are regular files of the same type with
different inodes, equal size and mtime but different permission bits, the
engine emits `update-permission` — but the `os.chmod` at fs.py:371 passes
`dst_stat.st_mode`, the destination's own mode, so the destination's
permission bits are unchanged and still differ from the source's (the spec
and the adjacent `chown`, which uses the source's uid/gid, show the intent
was `src_stat.st_mode`).  At source mode `0o644` (420) and destination mode
`0o600` (384): the triple is emitted and the destination keeps mode 384.
(With the claim's literal premise "same type and inode" the permission
branch is unreachable: an equal inode makes the engine rewrite instead.) -/
theorem c3_update_perm_chmods_destination_mode :
    (rsync false [(["f"], ⟨EKind.file, 1, 10, 100, 100, 420, 0, 0, ""⟩)]
        [(["f"], ⟨EKind.file, 2, 10, 100, 100, 384, 0, 0, ""⟩)]
        ⟨EKind.dir, 3, 0, 200, 200, 493, 0, 0, ""⟩
        ⟨EKind.dir, 4, 0, 200, 200, 493, 0, 0, ""⟩ 100).1
      = [(["f"], Actions.UPDATE_PERM, "")] ∧
    ((rsync false [(["f"], ⟨EKind.file, 1, 10, 100, 100, 420, 0, 0, ""⟩)]
        [(["f"], ⟨EKind.file, 2, 10, 100, 100, 384, 0, 0, ""⟩)]
        ⟨EKind.dir, 3, 0, 200, 200, 493, 0, 0, ""⟩
        ⟨EKind.dir, 4, 0, 200, 200, 493, 0, 0, ""⟩ 100).2.fs ["f"]).map Entry.mode
      = some 384 ∧
    (384 : Nat) ≠ 420 := by
  refine ⟨by decide, by decide, by decide⟩

/-! ## Claim C4 -/

/-- C4 is false as stated: the built-in engine's `dry_run` parameter is
accepted but never read (fs.py:240-242), so a dry-run call mutates the
destination exactly like a real call.  Concretely: with an empty source and
a destination holding one file `x`, the dry-run call deletes `x` from the
destination (the entry existed before the call). -/
theorem c4_counterexample_dry_run_mutates :
    ((rsync true [] [(["x"], ⟨EKind.file, 1, 10, 100, 100, 420, 0, 0, ""⟩)]
        ⟨EKind.dir, 2, 0, 200, 200, 493, 0, 0, ""⟩
        ⟨EKind.dir, 3, 0, 200, 200, 493, 0, 0, ""⟩ 50).2.fs ["x"]) = none ∧
    fsOfList [(["x"], ⟨EKind.file, 1, 10, 100, 100, 420, 0, 0, ""⟩)]
        ⟨EKind.dir, 3, 0, 200, 200, 493, 0, 0, ""⟩ ["x"]
      = some ⟨EKind.file, 1, 10, 100, 100, 420, 0, 0, ""⟩ := by
  refine ⟨by decide, by decide⟩

/-- C4 (amended): a dry-run call yields exactly the same `(path, action,
message)` stream as a non-dry-run call from the same state — but it also
performs exactly the same mutations, because `fs.rsync` ignores the flag
entirely; dry-run is NOT non-mutating. -/
theorem c4_amended_dry_run_flag_ignored (srcList dstList : EMap)
    (srcRoot dstRoot : Entry) (ino0 : Nat) :
    rsync true srcList dstList srcRoot dstRoot ino0
      = rsync false srcList dstList srcRoot dstRoot ino0 := rfl

/-! ## Claim C2 -/

/-- C2: `nest_hardlink`, despite its name and docstring ("Hardlink entity
from (src_dir + src_relpath) to dst_dir"), builds the delta entry with
`copy_direntry` (fs.py:538), which copies a regular file byte-wise
(`copy_file`) instead of calling `os.link` — the full-tree replicator
`_recursive_hardlink` does use `os.link` (fs.py:468).  For a source file
`a/b` with inode 5 replicated into an empty delta root, the created delta
entry gets a freshly allocated inode (here 101), not inode 5: the two
paths do not share an inode, contradicting the claim and the spec's "Delta
Directory: … stored as hardlinks". -/
theorem c2_delta_entry_copied_not_hardlinked :
    ((nest_hardlink
        (fsOfList [(["a"], ⟨EKind.dir, 2, 0, 60, 60, 493, 0, 0, ""⟩),
                   (["a", "b"], ⟨EKind.file, 5, 10, 100, 100, 420, 0, 0, ""⟩)]
          ⟨EKind.dir, 1, 0, 60, 60, 493, 0, 0, ""⟩)
        ["a", "b"]
        (fsOfList [] ⟨EKind.dir, 7, 0, 60, 60, 493, 0, 0, ""⟩)
        ⟨EKind.dir, 8, 0, 60, 60, 493, 0, 0, ""⟩ 100).map
      (fun r => (r.1 ["a", "b"]).map Entry.ino))
      = some (some 101) ∧ (101 : Nat) ≠ 5 := by
  refine ⟨by decide, by decide⟩

/-! ## Claim C5 -/

/-- C5 is false as stated: a latest snapshot containing an entry that is
none of file, directory or symlink (here a socket at path `s`) makes
`_recursive_hardlink` raise `NotImplementedError`; nothing in
`initiate_backup` catches it, so the exception propagates and the partially
created `newPath` is NOT deleted — the rollback (`shutil.rmtree` +
`return`, backup.py:319-323) runs only when the replicator returns
`False`. -/
theorem c5_counterexample_raised_leaves_newpath :
    (replicateLatest [(["s"], ⟨EKind.other, 1, 0, 0, 0, 420, 0, 0, ""⟩)]).newPathExists
        = true ∧
      (replicateLatest [(["s"], ⟨EKind.other, 1, 0, 0, 0, 420, 0, 0, ""⟩)]).raised
        = true := by
  refine ⟨by decide, by decide⟩

/-- C5 (amended): the orchestrator deletes `newPath` and aborts only when
replication reports failure by returning `False` (possible only for the
external `cp -al` variant); when the built-in replicator hits an
unsupported entry it raises, the run aborts with the exception propagating,
and `newPath` is left behind. -/
theorem c5_amended_cleanup_only_on_returned_false :
    (∀ (entries : List (Path × Entry)) (q : Path),
        recursiveHardlink entries = HlResult.raised q →
        replicateLatest entries
          = { raised := true, aborted := true, newPathExists := true }) ∧
      handleReplication (HlResult.returned false)
        = { raised := false, aborted := true, newPathExists := false } := by
  constructor
  · intro entries q h
    unfold replicateLatest
    rw [h]
    rfl
  · rfl

/-- Witness for the amended C5 at a concrete input. -/
theorem c5_amended_cleanup_only_on_returned_false_witness :
    recursiveHardlink [(["s"], ⟨EKind.other, 1, 0, 0, 0, 420, 0, 0, ""⟩)]
        = HlResult.raised ["s"] ∧
      replicateLatest [(["s"], ⟨EKind.other, 1, 0, 0, 0, 420, 0, 0, ""⟩)]
        = { raised := true, aborted := true, newPathExists := true } :=
  ⟨by decide,
    c5_amended_cleanup_only_on_returned_false.1
      [(["s"], ⟨EKind.other, 1, 0, 0, 0, 420, 0, 0, ""⟩)] ["s"] (by decide)⟩

/-! ## Claim C9 -/

/-- C9: when `set_backups_lock` finds an existing lock file whose recorded
PID is not alive — or kills the recorded process under `force=True` — it
unlinks the lock file and returns `True` WITHOUT writing a new lock file
with the caller's PID (backup.py:109-131 only write the caller's PID on
the no-lock-file path), so after the successful acquire no lock file
exists, and a second acquire (which then sees no lock file) also
succeeds. -/
theorem c9_stale_lock_acquire_leaves_no_lock (alive : Nat → Bool) (myPid pid : Nat)
    (force : Bool)
    (h : pid_exists alive pid = false ∨ force = true) :
    set_backups_lock alive myPid force (some pid) = (true, none) ∧
      ∀ (alive2 : Nat → Bool) (pid2 : Nat) (force2 : Bool),
        set_backups_lock alive2 pid2 force2 none = (true, some pid2) := by
  constructor
  · show (if pid_exists alive pid = true then
        if force = false then (false, some pid) else (true, none)
      else (true, none)) = (true, none)
    rcases h with h | h
    · rw [if_neg (by simp [h])]
    · by_cases ha : pid_exists alive pid = true
      · rw [if_pos ha, if_neg (by simp [h])]
      · rw [if_neg ha]
  · intro _ _ _
    rfl

/-- Witness for C9: a lock file recording dead PID 5; the acquire by PID 7
succeeds leaving no lock file, and a subsequent acquire by PID 9
succeeds. -/
theorem c9_stale_lock_acquire_leaves_no_lock_witness :
    pid_exists (fun _ => false) 5 = false ∧
      set_backups_lock (fun _ => false) 7 false (some 5) = (true, none) ∧
      set_backups_lock (fun _ => false) 9 false none = (true, some 9) :=
  ⟨by decide,
    (c9_stale_lock_acquire_leaves_no_lock (fun _ => false) 7 5 false
      (Or.inl (by decide))).1,
    (c9_stale_lock_acquire_leaves_no_lock (fun _ => false) 7 5 false
      (Or.inl (by decide))).2 (fun _ => false) 9 false⟩

end Curateipsum
